import Mathlib

/-!
Verification of the node-dbus core: a shallow embedding of the router
(`src/lib/bus.js`), the server-side object tree (`src/lib/DBusObjectLibs.js`),
the standard `ObjectManager` interface (`src/lib/std_ifaces/ObjectManager.js`)
and the proxy path helpers (`DBusProxy`), together with theorems settling the
specification claims about them.

Conventions used throughout:
* JavaScript strings are Lean `String`s; the handful of string operations the
  source uses (`split`, `startsWith`, `endsWith`, `indexOf`, `join`) are
  re-implemented structurally on `String.data` so that every concrete instance
  reduces inside the kernel.
* JavaScript objects used as dictionaries are association lists with the JS
  update semantics (updating an existing key keeps its position, a new key is
  appended at the end).
* High-level values are restricted to the scalar cases; the claims treated
  here only move values around opaquely, so nothing is lost.
-/

namespace NodeDbus

/-! ## JavaScript string primitives -/

/-- JS `String.prototype.split(sep)` for a one-character separator,
implemented structurally on the character list.  `"" → [""]`,
`"/a" → ["", "a"]`, `"abc" → ["abc"]`, exactly like JavaScript. -/
def splitCharList (sep : Char) : List Char → List (List Char)
  | [] => [[]]
  | c :: rest =>
    let r := splitCharList sep rest
    if c = sep then [] :: r
    else
      match r with
      | h :: t => (c :: h) :: t
      | [] => [[c]]

/-- JS `s.split(sep)` (single-character separator). -/
def jsSplit (sep : Char) (s : String) : List String :=
  (splitCharList sep s.data).map (fun l => ⟨l⟩)

/-- JS `s.startsWith(pre)`. -/
def jsStartsWith (s pre : String) : Bool :=
  pre.data.isPrefixOf s.data

/-- JS `s.endsWith(suf)`. -/
def jsEndsWith (s suf : String) : Bool :=
  suf.data.isSuffixOf s.data

/-- JS `s.includes(c)` / `s.indexOf(c) !== -1` for a single character. -/
def jsContainsChar (s : String) (c : Char) : Bool :=
  s.data.contains c

/-- Substring test on character lists (structural, kernel-reducible). -/
def listContainsSub {α : Type} [DecidableEq α] (sub : List α) : List α → Bool
  | [] => sub.isEmpty
  | c :: rest => sub.isPrefixOf (c :: rest) || listContainsSub sub rest

/-- JS `hay.indexOf(sub) !== -1` (substring containment). -/
def jsIncludesSub (hay sub : String) : Bool :=
  listContainsSub sub.data hay.data

/-- JS `Array.prototype.join('/')`. -/
def joinSlash (l : List String) : String :=
  String.intercalate "/" l

/-! ## Association lists with JavaScript object-update semantics -/

/-- Lookup of a key in a JS-object-as-dictionary. -/
def getAssoc {β : Type} (l : List (String × β)) (k : String) : Option β :=
  match l with
  | [] => none
  | (k', v) :: t => if k' = k then some v else getAssoc t k

/-- JS `obj[k] = v`: replace in place when the key exists, append otherwise. -/
def setAssoc {β : Type} (l : List (String × β)) (k : String) (v : β) :
    List (String × β) :=
  match l with
  | [] => [(k, v)]
  | (k', v') :: t => if k' = k then (k, v) :: t else (k', v') :: setAssoc t k v

/-- JS `delete obj[k]`. -/
def delAssoc {β : Type} (l : List (String × β)) (k : String) :
    List (String × β) :=
  match l with
  | [] => []
  | (k', v') :: t => if k' = k then t else (k', v') :: delAssoc t k

/-! ## High-level values, variants and emitted signals -/

/-- High-level (new-API) values, restricted to the scalar cases. -/
inductive JSVal : Type where
  | num (n : Int)
  | str (s : String)
  | bool (b : Bool)
  deriving DecidableEq

/-- The `{type, value}` variant objects the library builds for property
payloads. -/
structure Variant : Type where
  type : String
  value : JSVal
  deriving DecidableEq

/-- Bus-visible signals emitted from the standard interfaces.  The first
constructor's dictionary argument mirrors the nested
`{iface → {prop → variant}}` object of `ObjectManager`. -/
inductive EmittedSignal : Type where
  | interfacesAdded (objPath : String)
      (ifacesAndProperties : List (String × List (String × Variant)))
  | interfacesRemoved (objPath : String) (interfaces : List String)
  | propertiesChanged (ifaceName : String)
      (changedProperties : List (String × Variant))
      (invalidatedProperties : List String)
  deriving DecidableEq

/-! ## The data model: properties, interfaces, object nodes

A `PropDesc` merges a property's entry in `_ifaceDesc.properties` (its name,
its access mode — the single key of the descriptor object, one of `"read"`,
`"write"`, `"readwrite"` — and its type string) with the current value carried
by the interface instance (`iface[propName]`).

An `Iface` carries the interface instance together with its descriptor:
`methods` is the key set of `_ifaceDesc.methods`, `funcs` the set of names
`m` for which `iface[m]` is a JavaScript function.

A `Node` is a `DBusObject`: in JavaScript a single object holds interfaces
(keys that are dotted interface names) and children (keys that are path
components, values that are `instanceof DBusObject`) side by side; the two
key families never collide, so they are kept as two association lists.  The
`svc` flag records whether `_service` is set (the node belongs to an exposed
service), which changes what `getPath()` returns. -/

structure PropDesc : Type where
  name : String
  access : String
  type : String
  value : JSVal
  deriving DecidableEq

structure Iface : Type where
  name : String
  props : List PropDesc
  methods : List String
  funcs : List String
  deriving DecidableEq

inductive Node : Type where
  | mk (svc : Bool) (ifaces : List Iface) (children : List (String × Node))

/-- Whether `_service` is set on this node. -/
def Node.svc : Node → Bool
  | .mk s _ _ => s

/-- The interfaces held by this node (`getIfaces()`). -/
def Node.ifaces : Node → List Iface
  | .mk _ i _ => i

/-- The named children of this node. -/
def Node.children : Node → List (String × Node)
  | .mk _ _ c => c

/-- JS `obj[name] instanceof DBusObject` resolved to the child, if any. -/
def getChild (n : Node) (name : String) : Option Node :=
  getAssoc n.children name

/-- JS `obj[name] instanceof DBusInterface` resolved to the interface. -/
def getIface (n : Node) (name : String) : Option Iface :=
  n.ifaces.find? (fun i => i.name = name)

/-- `getChildrenPaths()`: the keys whose values are child `DBusObject`s. -/
def childNames (n : Node) : List String :=
  n.children.map Prod.fst

/-- `getIfaceNames().includes(name)` / `obj[name] !== undefined` for an
interface name. -/
def hasIface (n : Node) (name : String) : Bool :=
  (getIface n name).isSome

/-- Replace the child stored under `name` (an in-place JS field update). -/
def replaceChild (n : Node) (name : String) (c : Node) : Node :=
  .mk n.svc n.ifaces (setAssoc n.children name c)

/-- JS `delete this[name]` for a child key. -/
def removeChildNode (n : Node) (name : String) : Node :=
  .mk n.svc n.ifaces (delAssoc n.children name)

/-- The interface name of the standard object manager. -/
def objectManagerName : String := "org.freedesktop.DBus.ObjectManager"

/-- `DBusObject.getPath()`: join the path components recorded on the parent
chain and prefix a `'/'` exactly when `_service` is set.  `comps` is the chain
of `_pathComponent` values from the top-most (parent-less) object down to this
node. -/
def getPathStr (svc : Bool) (comps : List String) : String :=
  (if svc then "/" else "") ++ joinSlash comps

/-! ## C2 — serial numbers (`bus.js`: `invoke`, `sendSignal`,
`exportInterface`'s monkey-patched `emit`)

`invoke` stamps `msg.serial = self.serial++` (post-increment: the current
counter goes on the wire, then the counter advances).  `sendSignal` stamps
`serial: self.serial` and never advances the counter.  The monkey-patched
`emit` installed by `exportInterface` stamps `serial: self.serial` and then
runs `self.serial++`.  `runOps` plays a sequence of these three operations
against the counter and records the serial each one placed on the wire. -/

inductive BusOp : Type where
  | invoke
  | sendSignal
  | exportEmit
  deriving DecidableEq

/-- The counter value after an operation ran (`invoke` and the patched
`emit` post-increment; `sendSignal` leaves the counter alone). -/
def nextSerial : BusOp → Nat → Nat
  | .invoke, s => s + 1
  | .sendSignal, s => s
  | .exportEmit, s => s + 1

/-- Whether the operation consumes (advances) the serial counter. -/
def consumesSerial : BusOp → Bool
  | .invoke => true
  | .sendSignal => false
  | .exportEmit => true

/-- Run a sequence of send operations from counter value `s` (the bus starts
at `this.serial = 1`), recording the serial stamped on each outgoing
message.  All three operations stamp the current counter value. -/
def runOps (s : Nat) : List BusOp → List (BusOp × Nat)
  | [] => []
  | op :: rest => (op, s) :: runOps (nextSerial op s) rest

/-- Every serial stamped by a run is at least the starting counter value. -/
theorem runOps_serial_ge (ops : List BusOp) :
    ∀ s, ∀ x ∈ runOps s ops, s ≤ x.2 := by
  induction ops with
  | nil => intro s x hx; simp [runOps] at hx
  | cons op rest ih =>
    intro s x hx
    simp only [runOps, List.mem_cons] at hx
    rcases hx with rfl | hx
    · exact Nat.le_refl s
    · have h1 := ih (nextSerial op s) x hx
      have h2 : s ≤ nextSerial op s := by
        cases op <;> simp [nextSerial]
      omega

/-- C2, amended.  Along any run: serials on the wire are nondecreasing, and
every serial placed after a consuming operation (an `invoke` or an exported
`emit`) is strictly larger than that operation's serial.  Hence the serials
of the consuming operations are strictly increasing (an outstanding call's
serial is never stamped again), while a `sendSignal` shares its serial with
the next consuming send. -/
theorem runOps_serials_spec (s : Nat) (ops : List BusOp) :
    List.Pairwise
      (fun x y : BusOp × Nat =>
        x.2 ≤ y.2 ∧ (consumesSerial x.1 = true → x.2 < y.2))
      (runOps s ops) := by
  induction ops generalizing s with
  | nil => simp [runOps]
  | cons op rest ih =>
    simp only [runOps, List.pairwise_cons]
    constructor
    · intro y hy
      have hge := runOps_serial_ge rest (nextSerial op s) y hy
      constructor
      · have : s ≤ nextSerial op s := by cases op <;> simp [nextSerial]
        omega
      · intro hcons
        have : nextSerial op s = s + 1 := by
          cases op <;> simp_all [consumesSerial, nextSerial]
        omega
    · exact ih (nextSerial op s)

/-- Witness for `runOps_serials_spec` on a concrete run. -/
theorem runOps_serials_spec_witness :
    List.Pairwise
      (fun x y : BusOp × Nat =>
        x.2 ≤ y.2 ∧ (consumesSerial x.1 = true → x.2 < y.2))
      (runOps 1 [BusOp.invoke, BusOp.sendSignal, BusOp.exportEmit]) :=
  runOps_serials_spec 1 [BusOp.invoke, BusOp.sendSignal, BusOp.exportEmit]

/-- C2, counterexample.  Starting from the initial counter `1`, a
`sendSignal` followed by an `invoke` puts serial `1` on the wire twice: the
serials of outgoing messages are not strictly monotonically increasing. -/
theorem runOps_not_strictly_increasing :
    (runOps 1 [BusOp.sendSignal, BusOp.invoke]).map Prod.snd = [1, 1] ∧
    ¬ List.Pairwise (fun a b : Nat => a < b)
        ((runOps 1 [BusOp.sendSignal, BusOp.invoke]).map Prod.snd) := by
  constructor
  · rfl
  · decide

/-! ## C9 / C10 — `addMatch` and `removeMatch` (`bus.js` lines 943–984)

The bus's unique name `self.name` is unset until the `Hello` handshake
answers (and is explicitly `null` for a direct connection).  `addMatch`
bails out with `callback(null, null)` when `!self.name` (JS falsiness);
`removeMatch` bails out when `self.name == null` (loose equality, which
matches both `null` and `undefined`).  Otherwise each call sends exactly one
`AddMatch` / `RemoveMatch` to the daemon per invocation — there is no
reference counting of match rules anywhere in the source. -/

/-- The JavaScript value of `self.name`. -/
inductive JSName : Type where
  | undef
  | null
  | str (s : String)
  deriving DecidableEq

/-- JS `!self.name` (falsiness: `undefined`, `null` and `""` are falsy). -/
def jsNameFalsy : JSName → Bool
  | .undef => true
  | .null => true
  | .str s => s = ""

/-- JS `self.name == null` (loose equality matches `null` and `undefined`). -/
def jsNameEqNull : JSName → Bool
  | .undef => true
  | .null => true
  | .str _ => false

/-- A message sent to the daemon through `invokeDbus`. -/
inductive DaemonCall : Type where
  | addMatch (rule : String)
  | removeMatch (rule : String)
  deriving DecidableEq

/-- `bus.addMatch(match, callback)`: returns the daemon calls it sends and,
when it short-circuits, the immediate `callback(null, null)` arguments. -/
def busAddMatch (name : JSName) (rule : String) :
    List DaemonCall × Option (Option String × Option String) :=
  if jsNameFalsy name then ([], some (none, none))
  else ([.addMatch rule], none)

/-- `bus.removeMatch(match, callback)`: same shape as `busAddMatch`. -/
def busRemoveMatch (name : JSName) (rule : String) :
    List DaemonCall × Option (Option String × Option String) :=
  if jsNameEqNull name then ([], some (none, none))
  else ([.removeMatch rule], none)

/-- A subscription-management operation issued by a client of the bus. -/
inductive MatchOp : Type where
  | add (rule : String)
  | remove (rule : String)
  deriving DecidableEq

/-- The daemon call a single operation translates to. -/
def matchOpToDaemon : MatchOp → DaemonCall
  | .add r => .addMatch r
  | .remove r => .removeMatch r

/-- Play a sequence of `addMatch` / `removeMatch` calls against a bus whose
name is `name`, collecting every message sent to the daemon. -/
def runMatchOps (name : JSName) : List MatchOp → List DaemonCall
  | [] => []
  | .add r :: rest => (busAddMatch name r).1 ++ runMatchOps name rest
  | .remove r :: rest => (busRemoveMatch name r).1 ++ runMatchOps name rest

/-- C9, amended.  With the unique name set (a non-empty string), every
`addMatch` call sends its own `AddMatch` to the daemon and every
`removeMatch` call sends its own `RemoveMatch`: one daemon call per
operation, with no reference counting of duplicate rules. -/
theorem runMatchOps_one_call_each (s : String) (ops : List MatchOp)
    (h : s ≠ "") :
    runMatchOps (.str s) ops = ops.map matchOpToDaemon := by
  induction ops with
  | nil => rfl
  | cons op rest ih =>
    cases op with
    | add r =>
      simp only [runMatchOps, busAddMatch, jsNameFalsy, List.map_cons,
        matchOpToDaemon, ih]
      simp [h]
    | remove r =>
      simp only [runMatchOps, busRemoveMatch, jsNameEqNull, List.map_cons,
        matchOpToDaemon, ih]
      simp

/-- Witness for `runMatchOps_one_call_each` at a concrete bus name and
operation list. -/
theorem runMatchOps_one_call_each_witness :
    (":1.5" : String) ≠ "" ∧
    runMatchOps (.str ":1.5") [MatchOp.add "r", MatchOp.add "r"] =
      [DaemonCall.addMatch "r", DaemonCall.addMatch "r"] := by
  refine ⟨by decide, ?_⟩
  rw [runMatchOps_one_call_each ":1.5" [MatchOp.add "r", MatchOp.add "r"]
    (by decide)]
  rfl

/-- C9, counterexample.  Adding the same rule twice sends `AddMatch` to the
daemon twice, and removing one of the two subscriptions immediately sends
`RemoveMatch` even though a subscription for the rule remains. -/
theorem runMatchOps_duplicates_counterexample :
    runMatchOps (.str ":1.5")
        [MatchOp.add "r", MatchOp.add "r", MatchOp.remove "r"] =
      [DaemonCall.addMatch "r", DaemonCall.addMatch "r",
        DaemonCall.removeMatch "r"] := by
  decide

/-- C10.  While the unique connection name is unset (`undefined` before the
`Hello` reply, or `null` for a direct connection), `addMatch` and
`removeMatch` call back immediately with `(null, null)` and send nothing to
the daemon. -/
theorem addRemoveMatch_without_name (name : JSName) (rule : String)
    (h : name = .undef ∨ name = .null) :
    busAddMatch name rule = ([], some (none, none)) ∧
    busRemoveMatch name rule = ([], some (none, none)) := by
  rcases h with rfl | rfl <;>
    simp [busAddMatch, busRemoveMatch, jsNameFalsy, jsNameEqNull]

/-- Witness for `addRemoveMatch_without_name` on a direct (null-named)
connection. -/
theorem addRemoveMatch_without_name_witness :
    busAddMatch .null "type='signal'" = ([], some (none, none)) ∧
    busRemoveMatch .null "type='signal'" = ([], some (none, none)) :=
  addRemoveMatch_without_name .null "type='signal'" (Or.inr rfl)

/-! ## C8 — proxy depth accounting (`DBusProxy.prototype.getDepth`,
`makeIntrospectionPass`)

`getDepth` is `objectPath.split('/').length`.  The introspection pass
recurses only while `!isNaN(d) && d > 0`, passing `d - 1` down; with
`maxIntrospectionDepth = Infinity` the decrement leaves `Infinity`
unchanged, so the guard never fails. -/

/-- `getDepth(objectPath)`: the length of the JS split on `'/'`. -/
def getDepth (objectPath : String) : Nat :=
  (jsSplit '/' objectPath).length

/-- A JS number arising as an introspection depth: an integer or
`Infinity` (the constructor rejects `NaN` inputs). -/
inductive JNum : Type where
  | num (n : Int)
  | inf
  deriving DecidableEq

/-- The recursion guard `!isNaN(d) && d > 0` of `makeIntrospectionPass`. -/
def depthGate : JNum → Bool
  | .num n => 0 < n
  | .inf => true

/-- The depth passed to the recursive calls: `newDepth = d - 1`
(`Infinity - 1 === Infinity` in JavaScript). -/
def depthDec : JNum → JNum
  | .num n => .num (n - 1)
  | .inf => .inf

/-- Iterated decrement keeps `Infinity` at `Infinity`. -/
theorem depthDec_iterate_inf (k : Nat) : depthDec^[k] JNum.inf = JNum.inf := by
  induction k with
  | zero => rfl
  | succ k ih => rw [Function.iterate_succ_apply, depthDec, ih]

/-- C8, amended.  The depth measure counts the components of the JS split:
`'/my/object/path'` has depth 4 as the claim says, but the root path `'/'`
splits into `['', '']` and therefore has depth 2, not 1; and a
`max_depth` of `Infinity` passes the recursion guard after any number of
decrements, so it disables the introspection bound entirely. -/
theorem depth_accounting_spec :
    getDepth "/my/object/path" = 4 ∧
    getDepth "/" = 2 ∧
    (∀ k : Nat, depthGate (depthDec^[k] JNum.inf) = true) := by
  refine ⟨by decide, by decide, ?_⟩
  intro k
  rw [depthDec_iterate_inf]
  rfl

/-- Witness for `depth_accounting_spec`: the Infinity gate still passes
after three levels of recursion. -/
theorem depth_accounting_spec_witness :
    depthGate (depthDec^[3] JNum.inf) = true :=
  depth_accounting_spec.2.2 3

/-- C8, counterexample.  The root path does not have depth 1. -/
theorem getDepth_root_counterexample :
    getDepth "/" = 2 ∧ getDepth "/" ≠ 1 := by
  decide

/-! ## C7 — `DBusProxy.prototype.areObjectPathsBelongedTo`

The source appends a trailing `'/'` to each path when missing and then tests
`p1.indexOf(p2) !== -1 || p2.indexOf(p1) !== -1` — substring containment,
not the prefix test its own documentation (and the spec) describe. -/

/-- Append a trailing slash when the path does not already end in one. -/
def ensureTrailingSlash (p : String) : String :=
  if jsEndsWith p "/" then p else p ++ "/"

/-- `areObjectPathsBelongedTo(path1, path2)`, with `none` standing for a JS
`null`/`undefined` argument (the source's `path1 == null` test). -/
def areObjectPathsBelongedTo (path1 path2 : Option String) : Bool :=
  match path1, path2 with
  | none, _ => true
  | _, none => true
  | some path1, some path2 =>
    let p1 := ensureTrailingSlash path1
    let p2 := ensureTrailingSlash path2
    jsIncludesSub p1 p2 || jsIncludesSub p2 p1

/-- Modelled from the spec: the intended path-belonging test — "two paths
belong iff one is a prefix of the other under component boundaries; a null
target matches all".  With the trailing slash appended, a component-boundary
prefix is exactly a string prefix. -/
def specPathBelongs (path1 path2 : Option String) : Bool :=
  match path1, path2 with
  | none, _ => true
  | _, none => true
  | some path1, some path2 =>
    let p1 := ensureTrailingSlash path1
    let p2 := ensureTrailingSlash path2
    p1.data.isPrefixOf p2.data || p2.data.isPrefixOf p1.data

/-- C7.  On `path1 = "/a"`, `path2 = "/b/a"` the source returns `true`
(because `"/a/"` occurs as a substring of `"/b/a/"`), although neither path
is a component-boundary prefix of the other, contradicting both the claim
and the function's own documentation. -/
theorem areObjectPathsBelongedTo_substring_bug :
    areObjectPathsBelongedTo (some "/a") (some "/b/a") = true ∧
    specPathBelongs (some "/a") (some "/b/a") = false := by
  decide

/-! ## C3 — scalar property writes (`bus.exposeInterface`, lines 888–923)

For a property whose initial value is not a JS object, `exposeInterface`
installs a setter that (1) runs the user-supplied setter (default: store
into the backing cell `_name`), then (2) when the access mode is not
`"write"`, emits `PropertiesChanged` from the node's
`org.freedesktop.DBus.Properties` interface — with `value: newValue`, the
value passed to the accessor, not the value the setter actually stored
(the source even carries a TODO acknowledging this). -/

/-- One write through the public accessor of a scalar property.
`propSetter` models the user-supplied setter as the function taking the
incoming value to the value stored in the backing cell (`fun v => v` is the
default setter).  Returns the stored value and the emitted signals. -/
def scalarPropertySet (ifaceName propName propAccessMode propType : String)
    (propSetter : JSVal → JSVal) (newValue : JSVal) :
    JSVal × List EmittedSignal :=
  let stored := propSetter newValue
  let sigs :=
    if propAccessMode ≠ "write" then
      [EmittedSignal.propertiesChanged ifaceName
        [(propName, ⟨propType, newValue⟩)] []]
    else []
  (stored, sigs)

/-- A user-supplied sanitizing setter that stores half the incoming value. -/
def halvingSetter : JSVal → JSVal
  | .num n => .num (n / 2)
  | v => v

/-- C3, code bug.  Writing `10` through a readwrite property whose setter
stores `5` emits exactly one `PropertiesChanged`, but its payload carries
the pre-setter value `10`, not the stored value `5` that the claim (and the
source's own TODO) call for. -/
theorem scalarPropertySet_presetter_payload :
    scalarPropertySet "com.example.Iface" "P" "readwrite" "n"
        halvingSetter (.num 10) =
      (.num 5,
        [EmittedSignal.propertiesChanged "com.example.Iface"
          [("P", ⟨"n", .num 10⟩)] []]) ∧
    (JSVal.num 10 : JSVal) ≠ .num 5 := by
  decide

/-! ## C1 — inbound dispatch for exposed services
(`bus.handleDBusMessage`, `bus.js` lines 312–504)

A message whose destination is on `exposedServices` is handed to
`handleDBusMessage`.  The handler first lets `stdDbusIfaces` (the standard
interface shim) try the message; `stdifaces.js` is not part of the sources
provided here, so the shim is modelled from the spec.  For everything the
shim does not take, the handler splits `msg.path`, walks the service's
object tree and answers `UnknownObject` / `UnknownInterface` /
`UnknownMethod` as the walk fails. -/

/-- D-Bus message kinds (`constants.messageType`). -/
inductive MsgType : Type where
  | methodCall
  | methodReturn
  | errorKind
  | signal
  deriving DecidableEq

/-- The fields of an inbound message that the dispatch path inspects. -/
structure Msg : Type where
  path : String
  iface : String
  member : String
  type : MsgType

/-- The four standard interfaces shimmed by `stdDbusIfaces`. -/
def stdIfaceNames : List String :=
  ["org.freedesktop.DBus.Properties", "org.freedesktop.DBus.Peer",
    "org.freedesktop.DBus.Introspectable", "org.freedesktop.DBus.ObjectManager"]

/-- Modelled from the spec: `stdifaces.js` is not among the provided
sources; §4.1 step 4 says inbound calls "try the standard interface shim
first (Peer/Introspectable/Properties/ObjectManager)", so the shim is
modelled as intercepting exactly the messages addressed to one of the four
standard interfaces. -/
def stdShimHandles (m : Msg) : Bool :=
  m.iface ∈ stdIfaceNames

/-- What the router does with an inbound message for an exposed service. -/
inductive RouterAction : Type where
  | stdHandled
  | errorReply (errorName : String)
  | invokeMethod (ifaceName methodName : String)
  | noAction

/-- The component list `handleDBusMessage` walks: `msg.path.split('/')`,
then (unless the path is exactly `"/"`) the leading empty component is
shifted away and a literal `"/"` component is unshifted in front, because
the service object always carries the root under the key `"/"`. -/
def pathComponents (p : String) : List String :=
  if p = "/" then ["/"]
  else "/" :: (jsSplit '/' p).tail

/-- The traversal loop: each component must resolve to a child
`DBusObject`; the first failure aborts the walk. -/
def walkPath : Node → List String → Option Node
  | n, [] => some n
  | n, c :: rest =>
    match getChild n c with
    | some n2 => walkPath n2 rest
    | none => none

/-- `handleDBusMessage(msg)` for a message whose destination resolved to the
service object `svcNode` (the JS service object holds the tree root under
its `"/"` key, so `svcNode`'s children are consulted for the first
component).  Mirrors the source: shim first, then the walk
(`UnknownObject`), then the interface lookup (`UnknownInterface`), then —
for method calls only — the member lookup, which requires the name both in
`_ifaceDesc.methods` and as a function on the interface instance
(`UnknownMethod`). -/
def handleDBusMessage (svcNode : Node) (m : Msg) : RouterAction :=
  if stdShimHandles m then .stdHandled
  else
    match walkPath svcNode (pathComponents m.path) with
    | none => .errorReply "org.freedesktop.DBus.Error.UnknownObject"
    | some currObj =>
      match getIface currObj m.iface with
      | none => .errorReply "org.freedesktop.DBus.Error.UnknownInterface"
      | some ifc =>
        if m.type = .methodCall then
          if m.member ∈ ifc.methods ∧ m.member ∈ ifc.funcs then
            .invokeMethod m.iface m.member
          else .errorReply "org.freedesktop.DBus.Error.UnknownMethod"
        else .noAction

/-- C1.  For an inbound method call that the standard-interface shim does
not intercept: a failing walk yields `UnknownObject`; a reached node
without the requested interface yields `UnknownInterface`; a found
interface without the requested method (in its descriptor and as a
function) yields `UnknownMethod`; and an error reply is never a method
invocation. -/
theorem handleDBusMessage_routes (svcNode : Node) (m : Msg)
    (hty : m.type = .methodCall) (hstd : stdShimHandles m = false) :
    (walkPath svcNode (pathComponents m.path) = none →
      handleDBusMessage svcNode m =
        .errorReply "org.freedesktop.DBus.Error.UnknownObject") ∧
    (∀ currObj, walkPath svcNode (pathComponents m.path) = some currObj →
      getIface currObj m.iface = none →
      handleDBusMessage svcNode m =
        .errorReply "org.freedesktop.DBus.Error.UnknownInterface") ∧
    (∀ currObj ifc, walkPath svcNode (pathComponents m.path) = some currObj →
      getIface currObj m.iface = some ifc →
      ¬ (m.member ∈ ifc.methods ∧ m.member ∈ ifc.funcs) →
      handleDBusMessage svcNode m =
        .errorReply "org.freedesktop.DBus.Error.UnknownMethod") ∧
    (∀ e i mm, handleDBusMessage svcNode m = .errorReply e →
      handleDBusMessage svcNode m ≠ .invokeMethod i mm) := by
  refine ⟨?_, ?_, ?_, ?_⟩
  · intro hwalk
    simp [handleDBusMessage, hstd, hwalk]
  · intro currObj hwalk hifc
    simp [handleDBusMessage, hstd, hwalk, hifc]
  · intro currObj ifc hwalk hifc hmem
    simp [handleDBusMessage, hstd, hwalk, hifc, hty, hmem]
  · intro e i mm he
    rw [he]
    intro hcontra
    exact RouterAction.noConfusion hcontra

/-- Witness for `handleDBusMessage_routes`: a service exposing one empty
root object answers a method call for `/x` with `UnknownObject`. -/
theorem handleDBusMessage_routes_witness :
    handleDBusMessage
        (.mk true [] [("/", .mk true [] [])])
        ⟨"/x", "com.example.I", "M", .methodCall⟩ =
      .errorReply "org.freedesktop.DBus.Error.UnknownObject" :=
  (handleDBusMessage_routes (.mk true [] [("/", .mk true [] [])])
    ⟨"/x", "com.example.I", "M", .methodCall⟩ rfl rfl).1 rfl

/-! ## C4 — `DBusObject.addObject` (`DBusObjectLibs.js` lines 221–310)

`addObject(object, relativePath)` splits the relative path, validates every
component with `utils.isValidPathComponent` (the name-validation regexes are
external collaborators per §1, so the validator is a parameter here), walks
the components creating intermediate plain `DBusObject`s — the constructor
equips them with the three standard interfaces — and installs `object` at
the leaf, throwing if the leaf key already exists.  It captured
`this['org.freedesktop.DBus.ObjectManager']` on entry: only when the node
`addObject` was called on itself holds that interface does it emit a single
`InterfacesAdded(this.getPath() + '/' + relativePath, payload)`, where the
payload maps every interface of the new object to the variants of its
non-write-only properties.  No ancestor is ever consulted (the source notes
the missing upward traversal in a `@todo`). -/

/-- The non-write-only properties of an interface, as the
`{prop → {type, value}}` dictionary the source builds. -/
def nonWriteVariants (props : List PropDesc) : List (String × Variant) :=
  props.filterMap (fun p =>
    if p.access ≠ "write" then some (p.name, ⟨p.type, p.value⟩) else none)

/-- The `{iface → {prop → variant}}` payload for `InterfacesAdded`,
enumerating every interface of the newly added object. -/
def interfacesAndProperties (o : Node) : List (String × List (String × Variant)) :=
  o.ifaces.map (fun i => (i.name, nonWriteVariants i.props))

/-- Append a new child key (JS assignment to a previously absent key). -/
def insertChild (n : Node) (name : String) (c : Node) : Node :=
  .mk n.svc n.ifaces (n.children ++ [(name, c)])

/-- Modelled from the spec (§4.4): the three standard interfaces every
`new DBusObject()` receives in its constructor.  `Peer`, `Properties` and
`Introspectable` declare methods but no properties, which is all the claims
here depend on.  (Their implementation files are not among the provided
sources.) -/
def stdConstructorIfaces : List Iface :=
  [⟨"org.freedesktop.DBus.Properties", [], ["Get", "Set", "GetAll"],
      ["Get", "Set", "GetAll"]⟩,
    ⟨"org.freedesktop.DBus.Peer", [], ["Ping", "GetMachineId"],
      ["Ping", "GetMachineId"]⟩,
    ⟨"org.freedesktop.DBus.Introspectable", [], ["Introspect"],
      ["Introspect"]⟩]

/-- A fresh `new DBusObject()` as created for intermediate components. -/
def newDBusObject : Node :=
  .mk false stdConstructorIfaces []

/-- The traversal loop of `addObject`: all components but the last descend
(creating missing intermediate objects), the last installs the object,
throwing when the key is already taken by a child or an interface.  When an
intermediate component names an interface, the source would descend into the
interface object with unspecified effect; that branch is modelled as an
error and excluded from the theorems. -/
def addObjectWalk : Node → List String → Node → Except Unit Node
  | _, [], _ => .error ()
  | self, [comp], object =>
    if (getChild self comp).isSome || (getIface self comp).isSome then
      .error ()
    else .ok (insertChild self comp object)
  | self, comp :: c2 :: rest, object =>
    match getChild self comp with
    | some child => do
      let c ← addObjectWalk child (c2 :: rest) object
      .ok (replaceChild self comp c)
    | none =>
      if (getIface self comp).isSome then .error ()
      else do
        let c ← addObjectWalk newDBusObject (c2 :: rest) object
        .ok (insertChild self comp c)

/-- `addObject(object, relativePath)` on a node whose `getPath()` is
`selfPath`.  Returns the updated node together with the signals emitted
from the node's `ObjectManager` interface. -/
def addObject (self : Node) (selfPath : String) (object : Node)
    (relativePath : String) (isValidPathComponent : String → Bool) :
    Except Unit (Node × List EmittedSignal) :=
  if (jsSplit '/' relativePath).all isValidPathComponent then
    match addObjectWalk self (jsSplit '/' relativePath) object with
    | .error e => .error e
    | .ok self2 =>
      .ok (self2,
        if hasIface self objectManagerName then
          [.interfacesAdded (selfPath ++ "/" ++ relativePath)
            (interfacesAndProperties object)]
        else [])
  else .error ()

/-- C4, amended.  A successful `addObject` emits exactly one
`InterfacesAdded(this.getPath() + '/' + relativePath, payload)` when the
node it was called on itself implements `ObjectManager`, with the payload
enumerating, for every interface of the added object, its non-write-only
properties as variants; when the node does not implement `ObjectManager`
nothing is emitted, regardless of what any ancestor implements. -/
theorem addObject_signals_spec (self : Node) (selfPath : String)
    (object : Node) (relativePath : String) (valid : String → Bool)
    (res : Node × List EmittedSignal)
    (h : addObject self selfPath object relativePath valid = .ok res) :
    res.2 =
      if hasIface self objectManagerName then
        [.interfacesAdded (selfPath ++ "/" ++ relativePath)
          (interfacesAndProperties object)]
      else [] := by
  unfold addObject at h
  by_cases hv : (jsSplit '/' relativePath).all valid
  · rw [if_pos hv] at h
    cases hwalk : addObjectWalk self (jsSplit '/' relativePath) object with
    | error e => rw [hwalk] at h; exact Except.noConfusion h
    | ok self2 =>
      rw [hwalk] at h
      cases h
      rfl
  · rw [if_neg hv] at h
    exact Except.noConfusion h

/-- Witness for `addObject_signals_spec`: a node holding `ObjectManager`
gains a child `"a"` carrying one readwrite and one write-only property; the
theorem applied to the concrete (successful) call shows the single
`InterfacesAdded` whose payload lists only the readwrite property. -/
theorem addObject_signals_spec_witness :
    ([.interfacesAdded "/x/a" [("com.example.I", [("P", ⟨"q", .num 5⟩)])]] :
        List EmittedSignal) =
      if hasIface
          (.mk true [⟨objectManagerName, [], ["GetManagedObjects"],
            ["GetManagedObjects"]⟩] [])
          objectManagerName then
        [.interfacesAdded ("/x" ++ "/" ++ "a")
          (interfacesAndProperties
            (.mk false [⟨"com.example.I",
              [⟨"P", "readwrite", "q", .num 5⟩, ⟨"W", "write", "s", .str "w"⟩],
              [], []⟩] []))]
      else [] :=
  addObject_signals_spec
    (.mk true [⟨objectManagerName, [], ["GetManagedObjects"],
      ["GetManagedObjects"]⟩] [])
    "/x"
    (.mk false [⟨"com.example.I",
      [⟨"P", "readwrite", "q", .num 5⟩, ⟨"W", "write", "s", .str "w"⟩],
      [], []⟩] [])
    "a" (fun s => !s.isEmpty)
    (.mk true [⟨objectManagerName, [], ["GetManagedObjects"],
        ["GetManagedObjects"]⟩]
      [("a", .mk false [⟨"com.example.I",
        [⟨"P", "readwrite", "q", .num 5⟩, ⟨"W", "write", "s", .str "w"⟩],
        [], []⟩] [])],
      [.interfacesAdded "/x/a"
        [("com.example.I", [("P", ⟨"q", .num 5⟩)])]])
    rfl

/-- C4, counterexample.  In a tree whose root implements `ObjectManager`,
calling `addObject` on a child that does not: the call succeeds and emits no
signal at all — the `ObjectManager`-bearing ancestor stays silent, against
the claim. -/
theorem addObject_ancestor_counterexample :
    hasIface
        (.mk true [⟨objectManagerName, [], ["GetManagedObjects"],
          ["GetManagedObjects"]⟩] [("c", .mk true [] [])])
        objectManagerName = true ∧
    getChild
        (.mk true [⟨objectManagerName, [], ["GetManagedObjects"],
          ["GetManagedObjects"]⟩] [("c", .mk true [] [])])
        "c" = some (.mk true [] []) ∧
    Except.map Prod.snd
        (addObject (.mk true [] []) "/c" (.mk false [] []) "a"
          (fun s => !s.isEmpty)) =
      .ok [] := by
  refine ⟨by rfl, by rfl, by rfl⟩

/-! ## C5 — `DBusObject.removeObject` (`DBusObjectLibs.js` lines 317–362)
and `emitInterfacesRemoved` (lines 392–409)

`removeObject` throws on an absolute path; on `a/b/c` it forwards to child
`a` with `b/c` (the child re-checks for a leading `'/'` on the re-joined
remainder); on a single component it depth-first removes every interface of
the subtree (with `shouldEmit = false`, so silently), calls
`emitInterfacesRemoved(['', this.getPath(), comp].join('/'), [])` — which
walks up from the parent toward the root and lets the first
`ObjectManager`-bearing node emit, or nobody if there is none — and finally
deletes the child key.

The model passes the already-split component list down the recursion; the
source re-joins and re-splits at every level, which round-trips because the
components carry no `'/'`.  `anc` is the `_parentObject` chain of `self`
(nearest first) and `comps` the component chain giving `self.getPath()`. -/

/-- `emitInterfacesRemoved(objPath, interfaces)` called on the head of
`chain`: the first node in the chain holding `ObjectManager` emits, a chain
without one emits nothing. -/
def emitInterfacesRemovedChain : List Node → String → List String →
    List EmittedSignal
  | [], _, _ => []
  | n :: rest, p, ifs =>
    if hasIface n objectManagerName then [.interfacesRemoved p ifs]
    else emitInterfacesRemovedChain rest p ifs

/-- The recursion of `removeObject` over the component list. -/
def removeObjectAux (anc : List Node) (comps : List String) (self : Node) :
    List String → Except Unit (Node × List EmittedSignal)
  | [] => .error ()
  | [comp] =>
    if comp ∈ childNames self then
      .ok (removeChildNode self comp,
        emitInterfacesRemovedChain (self :: anc)
          ("/" ++ getPathStr self.svc comps ++ "/" ++ comp) [])
    else .error ()
  | comp :: c2 :: rest =>
    match getChild self comp with
    | none => .error ()
    | some child =>
      if c2 = "" ∧ rest ≠ [] then .error ()
      else
        match removeObjectAux (self :: anc) (comps ++ [comp]) child
            (c2 :: rest) with
        | .error e => .error e
        | .ok (c, sigs) => .ok (replaceChild self comp c, sigs)

/-- `removeObject(objPathComponent)` on `self` (parent chain `anc`,
component chain `comps`). -/
def removeObject (anc : List Node) (comps : List String) (self : Node)
    (objPathComponent : String) : Except Unit (Node × List EmittedSignal) :=
  if jsStartsWith objPathComponent "/" then .error ()
  else removeObjectAux anc comps self (jsSplit '/' objPathComponent)

/-- The chain emitter produces nothing or exactly one signal carrying the
given path and interface list. -/
theorem emitInterfacesRemovedChain_shape (chain : List Node) (p : String)
    (ifs : List String) :
    emitInterfacesRemovedChain chain p ifs = [] ∨
    emitInterfacesRemovedChain chain p ifs = [.interfacesRemoved p ifs] := by
  induction chain with
  | nil => exact Or.inl rfl
  | cons n rest ih =>
    by_cases hom : hasIface n objectManagerName
    · exact Or.inr (by simp [emitInterfacesRemovedChain, hom])
    · simpa [emitInterfacesRemovedChain, hom] using ih

/-- The chain emitter stays silent exactly when no node on the chain holds
`ObjectManager`. -/
theorem emitInterfacesRemovedChain_empty_iff (chain : List Node) (p : String)
    (ifs : List String) :
    emitInterfacesRemovedChain chain p ifs = [] ↔
      ∀ n ∈ chain, hasIface n objectManagerName = false := by
  induction chain with
  | nil => simp [emitInterfacesRemovedChain]
  | cons n rest ih =>
    by_cases hom : hasIface n objectManagerName
    · simp [emitInterfacesRemovedChain, hom]
    · simp only [emitInterfacesRemovedChain, if_neg hom, ih,
        List.mem_cons, Bool.not_eq_true] at *
      constructor
      · intro h x hx
        rcases hx with rfl | hx
        · simpa using hom
        · exact h x hx
      · intro h x hx
        exact h x (Or.inr hx)

/-- Every successful `removeObjectAux` emits either nothing or a single
`InterfacesRemoved` with the empty interface list. -/
theorem removeObjectAux_sigs (parts : List String) :
    ∀ (anc : List Node) (comps : List String) (self : Node)
      (res : Node × List EmittedSignal),
      removeObjectAux anc comps self parts = .ok res →
      res.2 = [] ∨ ∃ p, res.2 = [.interfacesRemoved p []] := by
  induction parts with
  | nil =>
    intro anc comps self res h
    exact Except.noConfusion h
  | cons comp rest ih =>
    intro anc comps self res h
    cases rest with
    | nil =>
      by_cases hc : comp ∈ childNames self
      · rw [removeObjectAux, if_pos hc] at h
        cases h
        rcases emitInterfacesRemovedChain_shape (self :: anc)
            ("/" ++ getPathStr self.svc comps ++ "/" ++ comp) [] with
          hsh | hsh
        · exact Or.inl hsh
        · exact Or.inr ⟨_, hsh⟩
      · rw [removeObjectAux, if_neg hc] at h
        exact Except.noConfusion h
    | cons c2 rest2 =>
      rw [removeObjectAux] at h
      cases hch : getChild self comp with
      | none => rw [hch] at h; exact Except.noConfusion h
      | some child =>
        rw [hch] at h
        dsimp only at h
        by_cases habs : c2 = "" ∧ rest2 ≠ []
        · rw [if_pos habs] at h
          exact Except.noConfusion h
        · rw [if_neg habs] at h
          cases hrec : removeObjectAux (self :: anc) (comps ++ [comp]) child
              (c2 :: rest2) with
          | error e => rw [hrec] at h; exact Except.noConfusion h
          | ok pr =>
            rw [hrec] at h
            cases pr with
            | mk c sigs =>
              cases h
              have := ih (self :: anc) (comps ++ [comp]) child (c, sigs) hrec
              simpa using this

/-- C5, amended.  `removeObject` rejects an absolute path with an error and
leaves the tree unchanged; a successful removal emits at most one signal,
always an `InterfacesRemoved` with the empty interface list; removing a
direct child deletes its key and lets the first `ObjectManager`-bearing
node among the parent and its ancestors emit
`InterfacesRemoved('/' + parent.getPath() + '/' + child, [])` — and when no
node on that chain implements `ObjectManager`, nothing is emitted. -/
theorem removeObject_spec (anc : List Node) (comps : List String)
    (self : Node) (relPath : String) :
    (jsStartsWith relPath "/" = true →
      removeObject anc comps self relPath = .error ()) ∧
    (∀ res, removeObject anc comps self relPath = .ok res →
      res.2 = [] ∨ ∃ p, res.2 = [.interfacesRemoved p []]) ∧
    (∀ comp, comp ∈ childNames self →
      removeObjectAux anc comps self [comp] =
        .ok (removeChildNode self comp,
          emitInterfacesRemovedChain (self :: anc)
            ("/" ++ getPathStr self.svc comps ++ "/" ++ comp) [])) ∧
    (∀ (chain : List Node) (p : String) (ifs : List String),
      emitInterfacesRemovedChain chain p ifs = [] ↔
        ∀ n ∈ chain, hasIface n objectManagerName = false) := by
  refine ⟨?_, ?_, ?_, ?_⟩
  · intro habs
    simp [removeObject, habs]
  · intro res h
    rw [removeObject] at h
    by_cases habs : jsStartsWith relPath "/" = true
    · rw [if_pos habs] at h
      exact Except.noConfusion h
    · rw [if_neg habs] at h
      exact removeObjectAux_sigs (jsSplit '/' relPath) anc comps self res h
  · intro comp hc
    rw [removeObjectAux, if_pos hc]
  · exact emitInterfacesRemovedChain_empty_iff

/-- Witness for `removeObject_spec`: removing the direct child `"a"` of an
unexposed node at component chain `["x"]` that itself implements
`ObjectManager` deletes the child and emits one
`InterfacesRemoved("/x/a", [])`. -/
theorem removeObject_spec_witness :
    removeObjectAux [] ["x"]
        (.mk false [⟨objectManagerName, [], ["GetManagedObjects"],
          ["GetManagedObjects"]⟩] [("a", .mk false [] [])])
        ["a"] =
      .ok (.mk false [⟨objectManagerName, [], ["GetManagedObjects"],
          ["GetManagedObjects"]⟩] [],
        [.interfacesRemoved "/x/a" []]) := by
  have h :=
    (removeObject_spec [] ["x"]
        (.mk false [⟨objectManagerName, [], ["GetManagedObjects"],
          ["GetManagedObjects"]⟩] [("a", .mk false [] [])])
        "a").2.2.1 "a" (by decide)
  exact h.trans (by rfl)

/-- C5, counterexample.  When no node on the parent chain implements
`ObjectManager`, removing an existing child succeeds and emits no signal at
all — not the single `InterfacesRemoved` the claim promises. -/
theorem removeObject_no_signal_counterexample :
    Except.map Prod.snd
        (removeObject [] []
          (.mk false [] [("a", .mk false [] [("b", .mk false [] [])])])
          "a") =
      .ok ([] : List EmittedSignal) := by
  rfl

/-! ## C6 — `ObjectManager.getManagedObjects`
(`std_ifaces/ObjectManager.js` lines 56–110)

`GetManagedObjects()` seeds an empty accumulator object and calls the
static `getManagedObjects(obj, acc)`: for the current node it takes the
keys that are valid interface names (exactly the node's interfaces, since
child components carry no dot), and **only for interfaces whose descriptor
property map is non-empty** creates `acc[obj.getPath()][ifaceName]` and
fills it with a variant for each property whose access mode is not
`"write"`; then it recurses into every child.  Interfaces without declared
properties — including the three standard interfaces every object carries —
and nodes having only such interfaces never appear in the result. -/

/-- A `{prop → variant}` dictionary. -/
abbrev IfaceEntry := List (String × Variant)

/-- A `{iface → {prop → variant}}` dictionary. -/
abbrev PathEntry := List (String × IfaceEntry)

/-- The accumulator object `{path → {iface → {prop → variant}}}`. -/
abbrev ManagedAcc := List (String × PathEntry)

/-- The keys of the accumulator. -/
def accKeys (acc : ManagedAcc) : List String :=
  acc.map Prod.fst

/-- The JS steps `if (acc[p] === undefined) acc[p] = {}` followed by
`acc[p][i] = e`: update the path's dictionary in place, or append a new
path entry at the end. -/
def updateAcc : ManagedAcc → String → String → IfaceEntry → ManagedAcc
  | [], p, i, e => [(p, [(i, e)])]
  | (p', pe) :: t, p, i, e =>
    if p' = p then (p, setAssoc pe i e) :: t
    else (p', pe) :: updateAcc t p i e

/-- The loop over the node's interfaces: property-bearing interfaces are
written into the accumulator under the node's path. -/
def processIfaces (path : String) : List Iface → ManagedAcc → ManagedAcc
  | [], acc => acc
  | i :: rest, acc =>
    processIfaces path rest
      (if i.props.isEmpty then acc
       else updateAcc acc path i.name (nonWriteVariants i.props))

mutual

/-- The static `ObjectManager.getManagedObjects(obj, acc)`: own interfaces
first, then the children in order. -/
def getManagedObjects : List String → Node → ManagedAcc → ManagedAcc
  | comps, .mk svc ifaces children, acc =>
    gmoChildren comps children
      (processIfaces (getPathStr svc comps) ifaces acc)

/-- The `for (childPath of obj.getChildrenPaths())` recursion. -/
def gmoChildren : List String → List (String × Node) → ManagedAcc → ManagedAcc
  | _, [], acc => acc
  | comps, (name, child) :: rest, acc =>
    gmoChildren comps rest (getManagedObjects (comps ++ [name]) child acc)

end

/-- The method `GetManagedObjects()`: run the recursion on an empty
accumulator, starting from the node (at component chain `comps`) whose
`ObjectManager` interface received the call. -/
def GetManagedObjects (comps : List String) (n : Node) : ManagedAcc :=
  getManagedObjects comps n []

/-- The property-bearing interfaces of a node as spec-side entries. -/
def bearingEntries (ifaces : List Iface) : PathEntry :=
  (ifaces.filter (fun i => !i.props.isEmpty)).map
    (fun i => (i.name, nonWriteVariants i.props))

mutual

/-- Modelled from the spec's words for the refinement: the managed-objects
dictionary described by the (amended) claim — one entry per descendant that
has at least one property-declaring interface, mapping each such interface
to the variants of its non-write-only properties, in tree order. -/
def managedObjectsSpec : List String → Node → ManagedAcc
  | comps, .mk svc ifaces children =>
    (if (bearingEntries ifaces).isEmpty then []
     else [(getPathStr svc comps, bearingEntries ifaces)]) ++
      mosChildren comps children

/-- The children part of `managedObjectsSpec`. -/
def mosChildren : List String → List (String × Node) → ManagedAcc
  | _, [] => []
  | comps, (name, child) :: rest =>
    managedObjectsSpec (comps ++ [name]) child ++ mosChildren comps rest

end

mutual

/-- The `getPath()` values of every node of the subtree, in tree order. -/
def allPaths : List String → Node → List String
  | comps, .mk svc _ children =>
    getPathStr svc comps :: allPathsChildren comps children

/-- The children part of `allPaths`. -/
def allPathsChildren : List String → List (String × Node) → List String
  | _, [] => []
  | comps, (name, child) :: rest =>
    allPaths (comps ++ [name]) child ++ allPathsChildren comps rest

end

mutual

/-- Structural well-formedness mirrored from JavaScript objects: within any
node of the subtree, interface names are pairwise distinct (they are keys
of one JS object). -/
def wfIfaces : Node → Bool
  | .mk _ ifaces children =>
    decide ((ifaces.map Iface.name).Nodup) && wfIfacesChildren children

/-- The children part of `wfIfaces`. -/
def wfIfacesChildren : List (String × Node) → Bool
  | [] => true
  | (_, child) :: rest => wfIfaces child && wfIfacesChildren rest

end

/-- Appending keys of accumulator segments. -/
theorem accKeys_append (a b : ManagedAcc) :
    accKeys (a ++ b) = accKeys a ++ accKeys b :=
  List.map_append _ a b

/-- Setting a fresh key appends it at the end (JS object semantics). -/
theorem setAssoc_fresh {β : Type} (l : List (String × β)) (k : String) (v : β)
    (h : k ∉ l.map Prod.fst) : setAssoc l k v = l ++ [(k, v)] := by
  induction l with
  | nil => rfl
  | cons hd t ih =>
    cases hd with
    | mk k' v' =>
      simp only [List.map_cons, List.mem_cons] at h
      push_neg at h
      rw [setAssoc, if_neg (Ne.symm h.1), ih h.2]
      rfl

/-- Updating a path absent from the accumulator appends a fresh entry. -/
theorem updateAcc_fresh (acc : ManagedAcc) (p i : String) (e : IfaceEntry)
    (h : p ∉ accKeys acc) : updateAcc acc p i e = acc ++ [(p, [(i, e)])] := by
  induction acc with
  | nil => rfl
  | cons hd t ih =>
    cases hd with
    | mk p' pe =>
      simp only [accKeys, List.map_cons, List.mem_cons] at h
      push_neg at h
      rw [updateAcc, if_neg (Ne.symm h.1), ih (by simpa [accKeys] using h.2)]
      rfl

/-- Updating the freshly appended last path entry. -/
theorem updateAcc_last (acc : ManagedAcc) (pe : PathEntry) (p i : String)
    (e : IfaceEntry) (h : p ∉ accKeys acc) :
    updateAcc (acc ++ [(p, pe)]) p i e = acc ++ [(p, setAssoc pe i e)] := by
  induction acc with
  | nil => simp [updateAcc]
  | cons hd t ih =>
    cases hd with
    | mk p' pe' =>
      simp only [accKeys, List.map_cons, List.mem_cons] at h
      push_neg at h
      rw [List.cons_append, updateAcc, if_neg (Ne.symm h.1),
        ih (by simpa [accKeys] using h.2)]
      rfl

/-- Running the interface loop against an accumulator ending in a fresh
entry for the node's path extends that entry with the property-bearing
interfaces. -/
theorem processIfaces_partial (ifaces : List Iface) :
    ∀ (acc : ManagedAcc) (path : String) (pe : PathEntry),
      path ∉ accKeys acc →
      (ifaces.map Iface.name).Nodup →
      (∀ i ∈ ifaces, i.name ∉ pe.map Prod.fst) →
      processIfaces path ifaces (acc ++ [(path, pe)]) =
        acc ++ [(path, pe ++ bearingEntries ifaces)] := by
  induction ifaces with
  | nil =>
    intro acc path pe _ _ _
    simp [processIfaces, bearingEntries]
  | cons i rest ih =>
    intro acc path pe hacc hnd hpe
    simp only [List.map_cons, List.nodup_cons] at hnd
    by_cases hemp : i.props.isEmpty
    · rw [processIfaces, if_pos hemp,
        ih acc path pe hacc hnd.2 (fun j hj => hpe j (List.mem_cons_of_mem i hj))]
      have : bearingEntries (i :: rest) = bearingEntries rest := by
        simp [bearingEntries, List.filter_cons, hemp]
      rw [this]
    · rw [processIfaces, if_neg hemp,
        updateAcc_last acc pe path i.name (nonWriteVariants i.props) hacc,
        setAssoc_fresh pe i.name (nonWriteVariants i.props)
          (hpe i (List.mem_cons_self i rest))]
      rw [ih acc path (pe ++ [(i.name, nonWriteVariants i.props)]) hacc hnd.2 ?fresh]
      case fresh =>
        intro j hj
        simp only [List.map_append, List.mem_append, List.map_cons]
        rintro (hin | hin)
        · exact hpe j (List.mem_cons_of_mem i hj) hin
        · simp only [List.map_nil, List.mem_singleton] at hin
          exact hnd.1 (hin ▸ List.mem_map_of_mem Iface.name hj)
      have : bearingEntries (i :: rest) =
          (i.name, nonWriteVariants i.props) :: bearingEntries rest := by
        simp [bearingEntries, List.filter_cons, hemp]
      rw [this, List.append_assoc]
      rfl

/-- The interface loop on a fresh path appends the node's property-bearing
interfaces as one new path entry (or nothing when there are none). -/
theorem processIfaces_fresh (ifaces : List Iface) :
    ∀ (acc : ManagedAcc) (path : String),
      path ∉ accKeys acc →
      (ifaces.map Iface.name).Nodup →
      processIfaces path ifaces acc =
        acc ++
          (if (bearingEntries ifaces).isEmpty then []
           else [(path, bearingEntries ifaces)]) := by
  induction ifaces with
  | nil =>
    intro acc path _ _
    simp [processIfaces, bearingEntries]
  | cons i rest ih =>
    intro acc path hacc hnd
    simp only [List.map_cons, List.nodup_cons] at hnd
    by_cases hemp : i.props.isEmpty
    · have hbe : bearingEntries (i :: rest) = bearingEntries rest := by
        simp [bearingEntries, List.filter_cons, hemp]
      rw [processIfaces, if_pos hemp, ih acc path hacc hnd.2, hbe]
    · have hbe : bearingEntries (i :: rest) =
          (i.name, nonWriteVariants i.props) :: bearingEntries rest := by
        simp [bearingEntries, List.filter_cons, hemp]
      rw [processIfaces, if_neg hemp,
        updateAcc_fresh acc path i.name (nonWriteVariants i.props) hacc,
        processIfaces_partial rest acc path
          [(i.name, nonWriteVariants i.props)] hacc hnd.2 ?fresh, hbe]
      case fresh =>
        intro j hj
        simp only [List.map_cons, List.map_nil, List.mem_singleton]
        intro hin
        exact hnd.1 (hin ▸ List.mem_map_of_mem Iface.name hj)
      simp

mutual

/-- The keys of the spec-side dictionary are paths of the subtree. -/
theorem mosKeys_subset (comps : List String) (n : Node) :
    accKeys (managedObjectsSpec comps n) ⊆ allPaths comps n := by
  cases n with
  | mk svc ifaces children =>
    rw [managedObjectsSpec, allPaths]
    intro p hp
    rw [accKeys_append] at hp
    rcases List.mem_append.mp hp with hin | hin
    · by_cases hemp : (bearingEntries ifaces).isEmpty
      · rw [if_pos hemp] at hin
        cases hin
      · rw [if_neg hemp] at hin
        simp only [accKeys, List.map_cons, List.map_nil,
          List.mem_singleton] at hin
        exact hin ▸ List.mem_cons_self _ _
    · exact List.mem_cons_of_mem _ (mosChildrenKeys_subset comps children hin)

/-- The children part of `mosKeys_subset`. -/
theorem mosChildrenKeys_subset (comps : List String)
    (l : List (String × Node)) :
    accKeys (mosChildren comps l) ⊆ allPathsChildren comps l := by
  cases l with
  | nil =>
    rw [mosChildren, allPathsChildren]
    intro p hp
    simp [accKeys] at hp
  | cons hd rest =>
    cases hd with
    | mk name child =>
      rw [mosChildren, allPathsChildren]
      intro p hp
      rw [accKeys_append] at hp
      rcases List.mem_append.mp hp with hin | hin
      · exact List.mem_append_left _ (mosKeys_subset (comps ++ [name]) child hin)
      · exact List.mem_append_right _ (mosChildrenKeys_subset comps rest hin)

end

mutual

/-- The accumulator-threading recursion of the source equals the spec-side
dictionary appended behind the incoming accumulator, provided interface
names are unique per node, subtree paths are pairwise distinct and none of
them already occurs in the accumulator. -/
theorem gmo_eq (comps : List String) (n : Node) (acc : ManagedAcc)
    (hwf : wfIfaces n = true) (hnd : (allPaths comps n).Nodup)
    (hdis : ∀ p ∈ allPaths comps n, p ∉ accKeys acc) :
    getManagedObjects comps n acc = acc ++ managedObjectsSpec comps n := by
  cases n with
  | mk svc ifaces children =>
    rw [wfIfaces, Bool.and_eq_true, decide_eq_true_eq] at hwf
    rw [allPaths] at hnd hdis
    rw [List.nodup_cons] at hnd
    have hown : getPathStr svc comps ∉ accKeys acc :=
      hdis _ (List.mem_cons_self _ _)
    rw [getManagedObjects, processIfaces_fresh ifaces acc _ hown hwf.1]
    rw [gmoChildren_eq comps children _ hwf.2 hnd.2 ?hd2]
    case hd2 =>
      intro p hp
      rw [accKeys_append, List.mem_append]
      push_neg
      refine ⟨hdis p (List.mem_cons_of_mem _ hp), ?_⟩
      by_cases hemp : (bearingEntries ifaces).isEmpty
      · rw [if_pos hemp]
        intro h
        simp [accKeys] at h
      · rw [if_neg hemp]
        simp only [accKeys, List.map_cons, List.map_nil, List.mem_singleton]
        intro heq
        exact hnd.1 (heq ▸ hp)
    rw [managedObjectsSpec, List.append_assoc]

/-- The children part of `gmo_eq`. -/
theorem gmoChildren_eq (comps : List String) (l : List (String × Node))
    (acc : ManagedAcc) (hwf : wfIfacesChildren l = true)
    (hnd : (allPathsChildren comps l).Nodup)
    (hdis : ∀ p ∈ allPathsChildren comps l, p ∉ accKeys acc) :
    gmoChildren comps l acc = acc ++ mosChildren comps l := by
  cases l with
  | nil =>
    rw [gmoChildren, mosChildren, List.append_nil]
  | cons hd rest =>
    cases hd with
    | mk name child =>
      rw [wfIfacesChildren, Bool.and_eq_true] at hwf
      rw [allPathsChildren] at hnd hdis
      rw [List.nodup_append] at hnd
      rw [gmoChildren,
        gmo_eq (comps ++ [name]) child acc hwf.1 hnd.1
          (fun p hp => hdis p (List.mem_append_left _ hp)),
        gmoChildren_eq comps rest _ hwf.2 hnd.2.1 ?hd2,
        mosChildren, List.append_assoc]
      case hd2 =>
        intro p hp
        rw [accKeys_append, List.mem_append]
        push_neg
        refine ⟨hdis p (List.mem_append_right _ hp), ?_⟩
        intro hin
        exact hnd.2.2 (mosKeys_subset (comps ++ [name]) child hin) hp

end

/-- C6, amended.  For a tree with JS-consistent interface keys and
pairwise-distinct node paths, `GetManagedObjects` returns exactly the
dictionary that, for every descendant (the receiving node included) owning
at least one property-declaring interface, maps the descendant's path to
its property-declaring interfaces, each recorded as a variant per
non-write-only property; interfaces that declare no properties (the
standard interfaces among them) and descendants having only such
interfaces are omitted. -/
theorem getManagedObjects_eq_spec (comps : List String) (n : Node)
    (hwf : wfIfaces n = true) (hnd : (allPaths comps n).Nodup) :
    GetManagedObjects comps n = managedObjectsSpec comps n := by
  have h := gmo_eq comps n [] hwf hnd (by intro p _; simp [accKeys])
  simpa [GetManagedObjects] using h

/-- Witness for `getManagedObjects_eq_spec` on a two-node exposed tree: the
root carries a readable property, the child `"a"` carries a readwrite and a
write-only one; the result lists `/` and `/a` with the write-only property
omitted. -/
theorem getManagedObjects_eq_spec_witness :
    GetManagedObjects []
        (.mk true [⟨"com.example.A", [⟨"P", "read", "n", .num 1⟩], [], []⟩]
          [("a", .mk true [⟨"com.example.B",
            [⟨"Q", "readwrite", "s", .str "v"⟩, ⟨"W", "write", "n", .num 7⟩],
            [], []⟩] [])]) =
      managedObjectsSpec []
        (.mk true [⟨"com.example.A", [⟨"P", "read", "n", .num 1⟩], [], []⟩]
          [("a", .mk true [⟨"com.example.B",
            [⟨"Q", "readwrite", "s", .str "v"⟩, ⟨"W", "write", "n", .num 7⟩],
            [], []⟩] [])]) ∧
    managedObjectsSpec []
        (.mk true [⟨"com.example.A", [⟨"P", "read", "n", .num 1⟩], [], []⟩]
          [("a", .mk true [⟨"com.example.B",
            [⟨"Q", "readwrite", "s", .str "v"⟩, ⟨"W", "write", "n", .num 7⟩],
            [], []⟩] [])]) =
      [("/", [("com.example.A", [("P", ⟨"n", .num 1⟩)])]),
        ("/a", [("com.example.B", [("Q", ⟨"s", .str "v"⟩)])])] := by
  constructor
  · exact getManagedObjects_eq_spec []
      (.mk true [⟨"com.example.A", [⟨"P", "read", "n", .num 1⟩], [], []⟩]
        [("a", .mk true [⟨"com.example.B",
          [⟨"Q", "readwrite", "s", .str "v"⟩, ⟨"W", "write", "n", .num 7⟩],
          [], []⟩] [])])
      (by decide) (by decide)
  · rfl

/-- C6, counterexample.  A node whose single interface declares no
properties: `GetManagedObjects` returns the empty dictionary, with no entry
for that descendant or that interface, against the claim's "an entry for
every interface held by that descendant". -/
theorem getManagedObjects_propertyless_counterexample :
    (Node.mk true [⟨"com.example.Empty", [], ["M"], ["M"]⟩] []).ifaces.length
        = 1 ∧
    GetManagedObjects [] (.mk true [⟨"com.example.Empty", [], ["M"], ["M"]⟩] [])
        = [] := by
  exact ⟨rfl, rfl⟩

end NodeDbus
